import Mathlib

/-!
Shallow embedding of the stream-provisioning-and-emission producers
(`src/json_producer.py`, `src/data_producer.py`).

The external Kinesis backend is modelled by an oracle: a finite list of
outcomes of successive `describe_stream` calls.  Each call either raises an
exception or returns a stream status.  The unbounded polling loops are
embedded by structural recursion on the oracle list; exhausting the oracle
models divergence (the real loop would keep polling forever).
-/

/-- Stream lifecycle status, as compared against string literals in the
source (`"DELETING"`, `"ACTIVE"`, the transitional states). -/
inductive StreamStatus where
  | CREATING
  | ACTIVE
  | DELETING
  | UPDATING
  deriving DecidableEq, Repr

/-- Exceptions a `describe_stream` call can raise.  `keyError` models the
`KeyError` caught in `wait_for_stream`'s first loop; `notFound` models the
backend's resource-not-found exception (stream absent); `connError` models a
transient backend failure with the stream present.  The source's bare
`except:` in `connect_to_stream` catches all three indistinctly. -/
inductive DescribeExc where
  | keyError
  | notFound
  | connError
  deriving DecidableEq, Repr

/-- Outcome of one `describe_stream(StreamName=...)` call. -/
inductive DescribeOut where
  | raises (e : DescribeExc)
  | answers (st : StreamStatus)
  deriving DecidableEq, Repr

/-- Result of `wait_for_stream`: it returns normally after observing a final
status (`ok`, carrying the unread remainder of the oracle), propagates an
uncaught exception (`exc`), or keeps polling forever (`diverge`, reached when
the oracle is exhausted). -/
inductive WaitResult where
  | ok (final : StreamStatus) (rest : List DescribeOut)
  | exc (e : DescribeExc) (rest : List DescribeOut)
  | diverge
  deriving DecidableEq, Repr

/-- First loop of `wait_for_stream` (src/json_producer.py:29-36 and
src/data_producer.py:32-39): retry `describe_stream` while it raises
`KeyError`; any other exception propagates; a successful describe yields the
status for the polling loop. -/
def waitPhase1 : List DescribeOut → WaitResult
  | [] => .diverge
  | .raises .keyError :: rest => waitPhase1 rest
  | .raises e :: rest => .exc e rest
  | .answers st :: rest => waitPhase2 st rest
where
  /-- Second loop (src/json_producer.py:37-42): while the status is not
  `ACTIVE`, sleep and re-describe; exceptions here are not caught. -/
  waitPhase2 : StreamStatus → List DescribeOut → WaitResult
  | .ACTIVE, rest => .ok .ACTIVE rest
  | _, [] => .diverge
  | _, .raises e :: rest => .exc e rest
  | _, .answers st :: rest => waitPhase2 st rest

/-- `wait_for_stream(kinesis_client, stream_name)` over a describe oracle. -/
def wait_for_stream (oracle : List DescribeOut) : WaitResult :=
  waitPhase1 oracle

/-- How `connect_to_stream` terminates: `ready` (returned `True`),
`terminal` (returned `False`, stream `DELETING`), `exc` (an uncaught
exception propagated out), or `diverge`. -/
inductive ConnectRes where
  | ready
  | terminal
  | exc (e : DescribeExc)
  | diverge
  deriving DecidableEq, Repr

/-- Observable outcome of `connect_to_stream`: its result, the number of
`create_stream` calls issued, and the part of the oracle it did not
consume. -/
structure ConnectOut where
  res : ConnectRes
  creates : ℕ
  rest : List DescribeOut
  deriving DecidableEq, Repr

/-- The `except:` branch of `connect_to_stream`
(src/json_producer.py:56-60): print, `create_stream(..., ShardCount=1)`
(one create call), then `wait_for_stream`; an exception escaping
`wait_for_stream` here propagates out of `connect_to_stream`. -/
def connectExceptBranch (oracle : List DescribeOut) : ConnectOut :=
  match wait_for_stream oracle with
  | .ok _ r => ⟨.ready, 1, r⟩
  | .exc e r => ⟨.exc e, 1, r⟩
  | .diverge => ⟨.diverge, 1, []⟩

/-- `connect_to_stream(kinesis_client, stream_name)`
(src/json_producer.py:45-61, identical in src/data_producer.py:48-64) over a
describe oracle.  The initial describe is inside a `try:`; *any* exception
from it — or from the `wait_for_stream` call on the not-yet-active path —
lands in the bare `except:` branch, which creates the stream and waits. -/
def connect_to_stream : List DescribeOut → ConnectOut
  | [] => ⟨.diverge, 0, []⟩
  | .raises _ :: rest => connectExceptBranch rest
  | .answers .DELETING :: rest => ⟨.terminal, 0, rest⟩
  | .answers .ACTIVE :: rest => ⟨.ready, 0, rest⟩
  | .answers _ :: rest =>
    match wait_for_stream rest with
    | .ok _ r => ⟨.ready, 0, r⟩
    | .exc _ r => connectExceptBranch r
    | .diverge => ⟨.diverge, 0, []⟩

/-!
## Emission loop, weighted-random variant (src/json_producer.py:75-107)

Randomness is an input: each iteration carries the draw
`r = random.randint(1, 501)` (inclusive bounds), the draw
`u = random.random()` (a real in `[0,1)`, modelled as a rational), and the
outcome of the `put_record` call (`none` = success, `some e` = the backend
raised an exception with detail `e`).  Timestamps are modelled as a tick
counter incremented once per iteration.
-/

/-- `obj["msg_type"] = 0 if r < 401 else (1 if r < 501 else 2)`
(src/json_producer.py:83). -/
def msgType (r : ℕ) : ℕ :=
  if r < 401 then 0 else if r < 501 then 1 else 2

/-- The branch picking `obj["value"]` (src/json_producer.py:84-87):
`float(int(random.random() * 256))` for `msg_type == 1` (with `u ≥ 0`,
Python `int` truncation is the floor), else `random.random() * 2000 - 1000`.
-/
def sampleValue (t : ℕ) (u : ℚ) : ℚ :=
  if t = 1 then ((⌊u * 256⌋ : ℤ) : ℚ) else u * 2000 - 1000

/-- One emitted json object: `msg_type`, `value`, `sequence`, `timestamp`
(src/json_producer.py:81-90). -/
structure Sample where
  msg_type : ℕ
  value : ℚ
  sequence : ℕ
  timestamp : ℕ
  deriving DecidableEq, Repr

/-- Inputs consumed by one iteration of the json emission loop. -/
structure JIter where
  r : ℕ
  u : ℚ
  pub : Option String
  deriving DecidableEq, Repr

/-- In-memory state of the json emission loop: the counter list
`n = [0, 0, 0]`, the records accepted by the backend, the error details
printed by the `except` clause, and the clock. -/
structure JState where
  n : List ℕ
  published : List Sample
  logged : List String
  tick : ℕ
  deriving DecidableEq, Repr

/-- Object construction for one iteration (src/json_producer.py:81-90):
choose the type, choose the value, `n[obj["msg_type"]] += 1`, read the
sequence back from the updated list, stamp the current time.  Returns the
object and the updated counter list. -/
def mkObj (r : ℕ) (u : ℚ) (n : List ℕ) (tick : ℕ) : Sample × List ℕ :=
  let t := msgType r
  let n' := n.set t (n.getD t 0 + 1)
  (⟨t, sampleValue t u, n'.getD t 0, tick⟩, n')

/-- The `put_record` call itself, before any handler: it either succeeds or
raises the exception detail. -/
def rawPutRecord (pub : Option String) : Except String Unit :=
  match pub with
  | none => .ok ()
  | some e => .error e

/-- One full iteration of the `while True:` body
(src/json_producer.py:79-107), with the `try/except` around `put_record`
made explicit: a raising publish is caught, its detail is printed
(appended to `logged`), and the body still completes normally.  The
`Except String` codomain records whether an exception escapes the body:
by construction of the handler it never does. -/
def jsonBody (s : JState) (it : JIter) : Except String JState :=
  let (obj, n') := mkObj it.r it.u s.n s.tick
  match rawPutRecord it.pub with
  | .ok _ => .ok ⟨n', s.published ++ [obj], s.logged, s.tick + 1⟩
  | .error e => .ok ⟨n', s.published, s.logged ++ [e], s.tick + 1⟩

/-- The json emission loop over a finite script of iteration inputs,
propagating any exception that escapes a body. -/
def jsonRunE (s : JState) : List JIter → Except String JState
  | [] => .ok s
  | it :: its =>
    match jsonBody s it with
    | .ok s' => jsonRunE s' its
    | .error e => .error e

/-- Total restatement of the loop (used to phrase its properties). -/
def jsonRun (s : JState) : List JIter → JState
  | [] => s
  | it :: its =>
    jsonRun (match jsonBody s it with | .ok s' => s' | .error _ => s) its

/-- Initial emission state (src/json_producer.py:75: `n = [0, 0, 0]`). -/
def jState0 : JState := ⟨[0, 0, 0], [], [], 0⟩

/-!
## Emission loop, fixed-batch variant (src/data_producer.py:77-107)

The object list is built once before the loop; each iteration restamps
`timestamp` and `motor_counter` on every object in place, then publishes the
serialized list.  The `np.random.randint` draws are inputs (`enc i`,
`mot i` for the i-th object).
-/

/-- One object of the fixed batch (src/data_producer.py:80-87). -/
structure DObj where
  msg_type : ℕ
  encoder : ℤ
  motor : ℤ
  timestamp : ℕ
  encoder_counter : ℕ
  motor_counter : ℕ
  deriving DecidableEq, Repr

/-- The startup construction loop (src/data_producer.py:78-87): `opm`
objects with `msg_type = 3`, `encoder = np.random.randint(-180, 180)`,
`motor = np.random.randint(-255, 256)`, a startup timestamp,
`encoder_counter = i * 100` and `motor_counter = i`. -/
def dataInit (opm : ℕ) (enc mot : ℕ → ℤ) (t0 : ℕ) : List DObj :=
  (List.range opm).map fun i => ⟨3, enc i, mot i, t0, i * 100, i⟩

/-- The inner `for i in range(args.objects_per_message):` of one loop
iteration (src/data_producer.py:93-96): restamp each object with the
current time and with `motor_counter = counter`, incrementing `counter`
once per object. -/
def dataStamp (objs : List DObj) (counter tick : ℕ) : List DObj :=
  objs.enum.map fun p =>
    { p.2 with timestamp := tick, motor_counter := counter + p.1 }

/-- In-memory state of the fixed-batch loop: the shared mutable object
list, the running `counter`, the published records (each a snapshot of the
whole list), the printed publish failures, and the clock. -/
structure DState where
  objects : List DObj
  counter : ℕ
  published : List (List DObj)
  logged : List String
  tick : ℕ
  deriving DecidableEq, Repr

/-- One iteration of the `while True:` body (src/data_producer.py:92-107)
with the `try/except` around `put_record` explicit: restamp the batch,
advance `counter` by the batch size, publish the snapshot or print the
exception detail; no exception escapes the body. -/
def dataBody (s : DState) (pub : Option String) : Except String DState :=
  let objs := dataStamp s.objects s.counter s.tick
  let c := s.counter + s.objects.length
  match rawPutRecord pub with
  | .ok _ => .ok ⟨objs, c, s.published ++ [objs], s.logged, s.tick + 1⟩
  | .error e => .ok ⟨objs, c, s.published, s.logged ++ [e], s.tick + 1⟩

/-- The fixed-batch loop over a finite script of publish outcomes. -/
def dataRunE (s : DState) : List (Option String) → Except String DState
  | [] => .ok s
  | p :: ps =>
    match dataBody s p with
    | .ok s' => dataRunE s' ps
    | .error e => .error e

/-- Total restatement of the fixed-batch loop. -/
def dataRun (s : DState) : List (Option String) → DState
  | [] => s
  | p :: ps =>
    dataRun (match dataBody s p with | .ok s' => s' | .error _ => s) ps

/-- Initial state of the fixed-batch loop (src/data_producer.py:78-91):
the freshly built object list and `counter = 0`. -/
def dState0 (opm : ℕ) (enc mot : ℕ → ℤ) : DState :=
  ⟨dataInit opm enc mot 0, 0, [], [], 1⟩

/-!
## The `main` pipeline of src/json_producer.py (lines 64-107)

`main` connects first and runs the emission loop only when
`connect_to_stream` returned `True`; on `False` it returns at once, so no
record is ever attempted. -/

/-- Observable outcome of a whole json-producer process run. -/
structure JMainOut where
  res : ConnectRes
  creates : ℕ
  published : List Sample
  logged : List String
  deriving DecidableEq, Repr

/-- `main()` of src/json_producer.py over a describe oracle and an
iteration script: `if not connect_to_stream(...): return`, then the
emission loop from the fresh state `n = [0, 0, 0]`. -/
def json_main (oracle : List DescribeOut) (iters : List JIter) : JMainOut :=
  match connect_to_stream oracle with
  | ⟨.ready, c, _⟩ =>
    let s := jsonRun jState0 iters
    ⟨.ready, c, s.published, s.logged⟩
  | ⟨res, c, _⟩ => ⟨res, c, [], []⟩

/-!
## List helper lemmas

The counter list `n` is accessed through `List.getD`/`List.set`; these
lemmas describe one in-bounds update. -/

theorem getD_set_self : ∀ (n : List ℕ) (t v : ℕ), t < n.length →
    (n.set t v).getD t 0 = v
  | [], t, v, h => absurd h (by simp)
  | _ :: _, 0, _, _ => rfl
  | _ :: n, t + 1, v, h => by
    simpa using getD_set_self n t v (by simpa using h)

theorem getD_set_ne : ∀ (n : List ℕ) (t t' v : ℕ), t' ≠ t →
    (n.set t v).getD t' 0 = n.getD t' 0
  | [], _, _, _, _ => by simp
  | _ :: _, 0, 0, _, h => absurd rfl h
  | _ :: _, 0, _ + 1, _, _ => by simp
  | _ :: _, _ + 1, 0, _, _ => by simp
  | _ :: n, t + 1, t' + 1, v, h => by
    simpa using getD_set_ne n t t' v (fun hc => h (by omega))

theorem sum_set_bump : ∀ (n : List ℕ) (t : ℕ), t < n.length →
    (n.set t (n.getD t 0 + 1)).sum = n.sum + 1
  | [], t, h => absurd h (by simp)
  | a :: n, 0, _ => by simp; omega
  | a :: n, t + 1, h => by
    have := sum_set_bump n t (by simpa using h)
    simp only [List.set, List.getD_cons_succ, List.sum_cons]
    omega

theorem getD_le_set_bump (n : List ℕ) (t t' : ℕ) (h : t < n.length) :
    n.getD t' 0 ≤ (n.set t (n.getD t 0 + 1)).getD t' 0 := by
  rcases eq_or_ne t' t with rfl | hne
  · rw [getD_set_self n t' _ h]; omega
  · rw [getD_set_ne n t t' _ hne]

/-!
## Step lemmas for the two emission loops
-/

theorem msgType_lt_three (r : ℕ) : msgType r < 3 := by
  unfold msgType
  split
  · omega
  · split <;> omega

/-- The state after one loop body (the body never raises, so this is the
state `jsonRun` continues from). -/
def jsonStep (s : JState) (it : JIter) : JState :=
  match jsonBody s it with
  | .ok s' => s'
  | .error _ => s

theorem jsonBody_ok (s : JState) (it : JIter) :
    jsonBody s it = .ok (jsonStep s it) := by
  cases it with
  | mk r u pub => cases pub <;> rfl

theorem jsonRun_cons (s : JState) (it : JIter) (its : List JIter) :
    jsonRun s (it :: its) = jsonRun (jsonStep s it) its := rfl

theorem jsonRunE_eq (its : List JIter) : ∀ s : JState,
    jsonRunE s its = .ok (jsonRun s its) := by
  induction its with
  | nil => intro s; rfl
  | cons it its ih =>
    intro s
    show (match jsonBody s it with
      | .ok s' => jsonRunE s' its
      | .error e => .error e) = _
    rw [jsonBody_ok, jsonRun_cons]
    exact ih (jsonStep s it)

theorem jsonStep_n (s : JState) (it : JIter) :
    (jsonStep s it).n
      = s.n.set (msgType it.r) (s.n.getD (msgType it.r) 0 + 1) := by
  cases it with
  | mk r u pub => cases pub <;> rfl

theorem jsonStep_tick (s : JState) (it : JIter) :
    (jsonStep s it).tick = s.tick + 1 := by
  cases it with
  | mk r u pub => cases pub <;> rfl

theorem jsonStep_logged (s : JState) (it : JIter) :
    (jsonStep s it).logged = s.logged ++ it.pub.toList := by
  cases it with
  | mk r u pub => cases pub <;> simp [jsonStep, jsonBody] <;> rfl

theorem jsonRun_tick (its : List JIter) : ∀ s : JState,
    (jsonRun s its).tick = s.tick + its.length := by
  induction its with
  | nil => intro s; rfl
  | cons it its ih =>
    intro s
    rw [jsonRun_cons, ih, jsonStep_tick]
    simp [Nat.add_assoc, Nat.add_comm 1 its.length]

theorem jsonRun_logged (its : List JIter) : ∀ s : JState,
    (jsonRun s its).logged = s.logged ++ its.filterMap JIter.pub := by
  induction its with
  | nil => intro s; simp [jsonRun]
  | cons it its ih =>
    intro s
    rw [jsonRun_cons, ih, jsonStep_logged]
    cases h : it.pub <;> simp [List.filterMap_cons, h]

/-- The state after one fixed-batch loop body. -/
def dataStep (s : DState) (p : Option String) : DState :=
  match dataBody s p with
  | .ok s' => s'
  | .error _ => s

theorem dataBody_ok (s : DState) (p : Option String) :
    dataBody s p = .ok (dataStep s p) := by
  cases p <;> rfl

theorem dataRun_cons (s : DState) (p : Option String)
    (ps : List (Option String)) :
    dataRun s (p :: ps) = dataRun (dataStep s p) ps := rfl

theorem dataRunE_eq (ps : List (Option String)) : ∀ s : DState,
    dataRunE s ps = .ok (dataRun s ps) := by
  induction ps with
  | nil => intro s; rfl
  | cons p ps ih =>
    intro s
    show (match dataBody s p with
      | .ok s' => dataRunE s' ps
      | .error e => .error e) = _
    rw [dataBody_ok, dataRun_cons]
    exact ih (dataStep s p)

theorem dataStep_objects (s : DState) (p : Option String) :
    (dataStep s p).objects = dataStamp s.objects s.counter s.tick := by
  cases p <;> rfl

theorem dataStep_counter (s : DState) (p : Option String) :
    (dataStep s p).counter = s.counter + s.objects.length := by
  cases p <;> rfl

theorem dataStep_tick (s : DState) (p : Option String) :
    (dataStep s p).tick = s.tick + 1 := by
  cases p <;> rfl

theorem dataStep_logged (s : DState) (p : Option String) :
    (dataStep s p).logged = s.logged ++ p.toList := by
  cases p <;> simp [dataStep, dataBody] <;> rfl

theorem dataStamp_length (objs : List DObj) (c t : ℕ) :
    (dataStamp objs c t).length = objs.length := by
  simp [dataStamp]

theorem dataStep_objects_length (s : DState) (p : Option String) :
    (dataStep s p).objects.length = s.objects.length := by
  rw [dataStep_objects, dataStamp_length]

theorem dataRun_tick (ps : List (Option String)) : ∀ s : DState,
    (dataRun s ps).tick = s.tick + ps.length := by
  induction ps with
  | nil => intro s; rfl
  | cons p ps ih =>
    intro s
    rw [dataRun_cons, ih, dataStep_tick]
    simp [Nat.add_assoc, Nat.add_comm 1 ps.length]

theorem dataRun_logged (ps : List (Option String)) : ∀ s : DState,
    (dataRun s ps).logged = s.logged ++ ps.filterMap id := by
  induction ps with
  | nil => intro s; simp [dataRun]
  | cons p ps ih =>
    intro s
    rw [dataRun_cons, ih, dataStep_logged]
    cases p <;> simp [List.filterMap_cons]

theorem dataRun_objects_length (ps : List (Option String)) : ∀ s : DState,
    (dataRun s ps).objects.length = s.objects.length := by
  induction ps with
  | nil => intro s; rfl
  | cons p ps ih =>
    intro s
    rw [dataRun_cons, ih, dataStep_objects_length]

theorem dataRun_counter (ps : List (Option String)) : ∀ s : DState,
    (dataRun s ps).counter = s.counter + ps.length * s.objects.length := by
  induction ps with
  | nil => intro s; simp [dataRun]
  | cons p ps ih =>
    intro s
    rw [dataRun_cons, ih, dataStep_counter, dataStep_objects_length]
    simp [List.length_cons]
    ring

theorem jsonStep_n_length (s : JState) (it : JIter) :
    (jsonStep s it).n.length = s.n.length := by
  rw [jsonStep_n, List.length_set]

theorem jsonRun_n_length (its : List JIter) : ∀ s : JState,
    (jsonRun s its).n.length = s.n.length := by
  induction its with
  | nil => intro s; rfl
  | cons it its ih =>
    intro s
    rw [jsonRun_cons, ih, jsonStep_n_length]

theorem jsonStep_n_getD (s : JState) (it : JIter) (t : ℕ)
    (h : msgType it.r < s.n.length) :
    (jsonStep s it).n.getD t 0
      = s.n.getD t 0 + (if msgType it.r = t then 1 else 0) := by
  rw [jsonStep_n]
  rcases eq_or_ne t (msgType it.r) with rfl | hne
  · rw [getD_set_self s.n (msgType it.r) _ h, if_pos rfl]
  · rw [getD_set_ne s.n _ t _ hne, if_neg (fun hc => hne hc.symm)]
    omega

theorem jsonRun_n_getD (its : List JIter) : ∀ s : JState, s.n.length = 3 →
    ∀ t : ℕ, (jsonRun s its).n.getD t 0
      = s.n.getD t 0 + its.countP (fun it => msgType it.r == t) := by
  induction its with
  | nil => intro s _ t; simp [jsonRun]
  | cons it its ih =>
    intro s h t
    rw [jsonRun_cons, ih (jsonStep s it) (by rw [jsonStep_n_length, h]) t,
      jsonStep_n_getD s it t (h ▸ msgType_lt_three it.r),
      List.countP_cons]
    rcases eq_or_ne (msgType it.r) t with heq | hne
    · simp only [heq, if_pos rfl, beq_self_eq_true, if_true]
      omega
    · simp [if_neg hne, beq_eq_false_iff_ne.mpr hne]

theorem jsonRun_n_sum (its : List JIter) : ∀ s : JState, s.n.length = 3 →
    (jsonRun s its).n.sum = s.n.sum + its.length := by
  induction its with
  | nil => intro s _; rfl
  | cons it its ih =>
    intro s h
    rw [jsonRun_cons, ih (jsonStep s it) (by rw [jsonStep_n_length, h]),
      jsonStep_n]
    rw [sum_set_bump s.n _ (h ▸ msgType_lt_three it.r)]
    simp [List.length_cons]
    omega

/-!
## Provisioner lemmas
-/

theorem waitPhase2_ok_active (l : List DescribeOut) :
    ∀ (st f : StreamStatus) (r : List DescribeOut),
      waitPhase1.waitPhase2 st l = .ok f r → f = .ACTIVE := by
  induction l with
  | nil =>
    intro st f r h
    cases st <;> first
      | (cases h; rfl)
      | cases h
  | cons x l ih =>
    intro st f r h
    cases x with
    | raises e =>
      cases st <;> first
        | (cases h; rfl)
        | cases h
    | answers st' =>
      cases st
      case ACTIVE => cases h; rfl
      all_goals exact ih st' f r h

theorem wait_ok_active (l : List DescribeOut) :
    ∀ (f : StreamStatus) (r : List DescribeOut),
      wait_for_stream l = .ok f r → f = .ACTIVE := by
  induction l with
  | nil => intro f r h; cases h
  | cons x l ih =>
    intro f r h
    cases x with
    | raises e =>
      cases e with
      | keyError => exact ih f r h
      | notFound => cases h
      | connError => cases h
    | answers st => exact waitPhase2_ok_active l st f r h

/-!
## Claim theorems
-/

/-- C1: in both producers, every publish failure during an emission
iteration is caught and its detail is logged, and the loop proceeds to the
next iteration: over any finite script of iterations the loop body never
lets an exception escape (`jsonRunE`/`dataRunE` return `.ok`), all
iterations execute (the tick advances by the script length), and the log
gains exactly the failure details of the failing publishes, in order. -/
theorem emission_publish_failure_caught_logged_loop_continues
    (s : JState) (iters : List JIter) (ds : DState)
    (ps : List (Option String)) :
    jsonRunE s iters = .ok (jsonRun s iters) ∧
    (jsonRun s iters).tick = s.tick + iters.length ∧
    (jsonRun s iters).logged = s.logged ++ iters.filterMap JIter.pub ∧
    dataRunE ds ps = .ok (dataRun ds ps) ∧
    (dataRun ds ps).tick = ds.tick + ps.length ∧
    (dataRun ds ps).logged = ds.logged ++ ps.filterMap id :=
  ⟨jsonRunE_eq iters s, jsonRun_tick iters s, jsonRun_logged iters s,
   dataRunE_eq ps ds, dataRun_tick ps ds, dataRun_logged ps ds⟩

/-- C3: when the initial describe raises (stream absent), the provisioner
takes the `except:` branch: exactly one `create_stream` call, then
`wait_for_stream`, and it only reports ready once the polled status is
`ACTIVE`. -/
theorem provision_absent_creates_once_waits_active
    (rest r : List DescribeOut) (st : StreamStatus)
    (h : wait_for_stream rest = .ok st r) :
    connect_to_stream (.raises .notFound :: rest) = ⟨.ready, 1, r⟩ ∧
    st = .ACTIVE := by
  constructor
  · show connectExceptBranch rest = _
    unfold connectExceptBranch
    rw [h]
  · exact wait_ok_active rest st r h

theorem provision_absent_creates_once_waits_active_witness :
    wait_for_stream [.answers .CREATING, .answers .ACTIVE]
        = .ok .ACTIVE [] ∧
    (connect_to_stream [.raises .notFound, .answers .CREATING,
        .answers .ACTIVE] = ⟨.ready, 1, []⟩ ∧
      StreamStatus.ACTIVE = .ACTIVE) :=
  ⟨by decide,
   provision_absent_creates_once_waits_active
     [.answers .CREATING, .answers .ACTIVE] [] .ACTIVE (by decide)⟩

/-- C4: when the initial describe answers `DELETING`, `connect_to_stream`
returns `False` with no create call, and `main` returns at once: the whole
run publishes nothing and logs nothing. -/
theorem provision_deleting_terminal_no_create_no_emission
    (rest : List DescribeOut) (iters : List JIter) :
    connect_to_stream (.answers .DELETING :: rest) = ⟨.terminal, 0, rest⟩ ∧
    json_main (.answers .DELETING :: rest) iters = ⟨.terminal, 0, [], []⟩ :=
  ⟨rfl, rfl⟩

/-- C5: when the initial describe answers `ACTIVE`, `connect_to_stream`
returns ready immediately, issues no create call and consumes nothing past
the first describe; consequently a second invocation against the
still-`ACTIVE` stream again performs zero mutating calls. -/
theorem provision_active_ready_idempotent (o o' : List DescribeOut) :
    connect_to_stream (.answers .ACTIVE :: o) = ⟨.ready, 0, o⟩ ∧
    connect_to_stream
        (connect_to_stream (.answers .ACTIVE :: .answers .ACTIVE :: o')).rest
      = ⟨.ready, 0, o'⟩ ∧
    (connect_to_stream (.answers .ACTIVE :: .answers .ACTIVE :: o')).creates
      + (connect_to_stream
          (connect_to_stream
            (.answers .ACTIVE :: .answers .ACTIVE :: o')).rest).creates
      = 0 :=
  ⟨rfl, rfl, rfl⟩

/-- C6 counterexample: a transient backend failure on the initial lookup
(`connError`, not a not-found signal — the immediately following describe
answers `ACTIVE`, so the stream exists) is not retried by re-querying:
`connect_to_stream` goes straight to the `except:` branch and issues a
create call for a stream that is present. -/
theorem transient_lookup_error_triggers_create :
    connect_to_stream [.raises .connError, .answers .ACTIVE]
        = ⟨.ready, 1, []⟩ ∧
    (connect_to_stream [.raises .connError, .answers .ACTIVE]).creates ≠ 0
    := by decide

/-- C6 amended: the bare `except:` collapses "stream absent" and "lookup
failed": whatever exception the initial describe raises, the provisioner
immediately issues exactly one create call, with no re-query beforehand. -/
theorem any_lookup_error_treated_as_absent
    (e : DescribeExc) (rest : List DescribeOut) :
    (connect_to_stream (.raises e :: rest)).creates = 1 := by
  show (connectExceptBranch rest).creates = 1
  unfold connectExceptBranch
  cases wait_for_stream rest <;> rfl

/-- C2 counterexample: a 2-iteration run of the weighted-random loop whose
draws select type 0 then type 1 (both publishes failing).  The loop
completes both iterations (`tick = 2`), but the per-type counters end at
`[1, 1, 0]`: no per-type counter equals its starting value plus `N = 2`,
refuting "the per-type sequence counter after the run equals its value
before the run plus N". -/
theorem per_type_counter_plus_N_fails :
    (jsonRun jState0 [⟨1, 0, some "e1"⟩, ⟨401, 0, some "e2"⟩]).tick = 2 ∧
    (jsonRun jState0 [⟨1, 0, some "e1"⟩, ⟨401, 0, some "e2"⟩]).n
      = [1, 1, 0] ∧
    ((jsonRun jState0 [⟨1, 0, some "e1"⟩, ⟨401, 0, some "e2"⟩]).n.all
      fun c => c != 2) = true := by decide

/-- C2 amended: over any N-iteration run with any pattern of publish
failures, the loop completes all N iterations; each per-type counter
advances by exactly the number of iterations that drew its type — an
expression of the draws alone, independent of which publishes failed — so
the counters jointly advance by exactly N; the fixed-batch variant's single
counter advances by `N * objects_per_message` (exactly N for the default
batch size 1), likewise independent of publish outcomes. -/
theorem sequence_counters_advance_every_iteration
    (s : JState) (iters : List JIter) (h : s.n.length = 3)
    (ds : DState) (ps : List (Option String)) :
    (jsonRun s iters).tick = s.tick + iters.length ∧
    (jsonRun s iters).n.sum = s.n.sum + iters.length ∧
    (∀ t : ℕ, (jsonRun s iters).n.getD t 0
      = s.n.getD t 0 + iters.countP (fun it => msgType it.r == t)) ∧
    (dataRun ds ps).counter = ds.counter + ps.length * ds.objects.length :=
  ⟨jsonRun_tick iters s, jsonRun_n_sum iters s h,
   jsonRun_n_getD iters s h, dataRun_counter ps ds⟩

theorem sequence_counters_advance_every_iteration_witness :
    jState0.n.length = 3 ∧
    ((jsonRun jState0 [⟨1, 0, some "a"⟩, ⟨401, 0, some "b"⟩]).tick
        = jState0.tick
          + ([⟨1, 0, some "a"⟩, ⟨401, 0, some "b"⟩] : List JIter).length ∧
      (jsonRun jState0 [⟨1, 0, some "a"⟩, ⟨401, 0, some "b"⟩]).n.sum
        = jState0.n.sum
          + ([⟨1, 0, some "a"⟩, ⟨401, 0, some "b"⟩] : List JIter).length ∧
      (∀ t : ℕ,
        (jsonRun jState0 [⟨1, 0, some "a"⟩, ⟨401, 0, some "b"⟩]).n.getD t 0
          = jState0.n.getD t 0
            + ([⟨1, 0, some "a"⟩, ⟨401, 0, some "b"⟩] : List JIter).countP
                (fun it => msgType it.r == t)) ∧
      (dataRun (dState0 1 (fun _ => 5) (fun _ => -7)) [some "x"]).counter
        = (dState0 1 (fun _ => 5) (fun _ => -7)).counter
          + ([some "x"] : List (Option String)).length
            * (dState0 1 (fun _ => 5) (fun _ => -7)).objects.length) :=
  ⟨by decide,
   sequence_counters_advance_every_iteration jState0
     [⟨1, 0, some "a"⟩, ⟨401, 0, some "b"⟩] (by decide)
     (dState0 1 (fun _ => 5) (fun _ => -7)) [some "x"]⟩

/-!
## Monotonicity of the sequence counters and of published sequence fields
-/

/-- Sequence fields carried by the published records of one message type,
in publication order. -/
def seqsOfType (t : ℕ) (l : List Sample) : List ℕ :=
  (l.filter fun rec => rec.msg_type == t).map Sample.sequence

/-- Loop invariant of the weighted-random emission loop: the counter list
keeps length 3, every published record's sequence field is at most the
current counter of its type, and per type the published sequence fields
are strictly increasing. -/
def JInv (s : JState) : Prop :=
  s.n.length = 3 ∧
  (∀ rec ∈ s.published, rec.sequence ≤ s.n.getD rec.msg_type 0) ∧
  ∀ t : ℕ, List.Pairwise (· < ·) (seqsOfType t s.published)

theorem mkObj_fst (r : ℕ) (u : ℚ) (n : List ℕ) (tick : ℕ)
    (h : msgType r < n.length) :
    (mkObj r u n tick).1
      = ⟨msgType r, sampleValue (msgType r) u,
          n.getD (msgType r) 0 + 1, tick⟩ := by
  unfold mkObj
  simp only
  rw [getD_set_self n (msgType r) _ h]

theorem jsonStep_published_none (s : JState) (it : JIter)
    (hp : it.pub = none) :
    (jsonStep s it).published
      = s.published ++ [(mkObj it.r it.u s.n s.tick).1] := by
  cases it with
  | mk r u pub =>
    cases pub with
    | none => rfl
    | some e => exact absurd hp (by simp)

theorem jsonStep_published_some (s : JState) (it : JIter) (e : String)
    (hp : it.pub = some e) :
    (jsonStep s it).published = s.published := by
  cases it with
  | mk r u pub =>
    cases pub with
    | none => exact absurd hp (by simp)
    | some e' => rfl

theorem seqsOfType_append_filtered (t : ℕ) (l : List Sample) (rec : Sample)
    (h : rec.msg_type ≠ t) :
    seqsOfType t (l ++ [rec]) = seqsOfType t l := by
  have hb : (rec.msg_type == t) = false := beq_eq_false_iff_ne.mpr h
  unfold seqsOfType
  rw [List.filter_append]
  simp [List.filter, hb]

theorem seqsOfType_append_matching (t : ℕ) (l : List Sample) (rec : Sample)
    (h : rec.msg_type = t) :
    seqsOfType t (l ++ [rec]) = seqsOfType t l ++ [rec.sequence] := by
  have hb : (rec.msg_type == t) = true := beq_iff_eq.mpr h
  unfold seqsOfType
  rw [List.filter_append]
  simp [List.filter, hb]

theorem mem_seqsOfType (t x : ℕ) (l : List Sample) (hx : x ∈ seqsOfType t l) :
    ∃ rec ∈ l, rec.msg_type = t ∧ rec.sequence = x := by
  unfold seqsOfType at hx
  obtain ⟨rec, hmem, hseq⟩ := List.mem_map.mp hx
  obtain ⟨hin, hty⟩ := List.mem_filter.mp hmem
  exact ⟨rec, hin, by simpa using hty, hseq⟩

theorem JInv_step (s : JState) (it : JIter) (h : JInv s) :
    JInv (jsonStep s it) := by
  obtain ⟨hlen, hbound, hpw⟩ := h
  have hlt : msgType it.r < s.n.length := hlen ▸ msgType_lt_three it.r
  have hboundStep : ∀ rec ∈ s.published,
      rec.sequence ≤ (jsonStep s it).n.getD rec.msg_type 0 := by
    intro rec hmem
    calc rec.sequence ≤ s.n.getD rec.msg_type 0 := hbound rec hmem
      _ ≤ (jsonStep s it).n.getD rec.msg_type 0 := by
          rw [jsonStep_n]
          exact getD_le_set_bump s.n _ rec.msg_type hlt
  refine ⟨by rw [jsonStep_n_length, hlen], ?_, ?_⟩
  · cases hp : it.pub with
    | some e =>
      rw [jsonStep_published_some s it e hp]
      exact hboundStep
    | none =>
      rw [jsonStep_published_none s it hp,
        mkObj_fst it.r it.u s.n s.tick hlt]
      intro rec hmem
      rcases List.mem_append.mp hmem with hold | hnew
      · exact hboundStep rec hold
      · have hnew' : rec = ⟨msgType it.r, sampleValue (msgType it.r) it.u,
            s.n.getD (msgType it.r) 0 + 1, s.tick⟩ :=
          List.mem_singleton.mp hnew
        subst hnew'
        rw [jsonStep_n]
        show s.n.getD (msgType it.r) 0 + 1
          ≤ (s.n.set (msgType it.r)
              (s.n.getD (msgType it.r) 0 + 1)).getD (msgType it.r) 0
        rw [getD_set_self s.n (msgType it.r) _ hlt]
  · cases hp : it.pub with
    | some e =>
      rw [jsonStep_published_some s it e hp]
      exact hpw
    | none =>
      rw [jsonStep_published_none s it hp,
        mkObj_fst it.r it.u s.n s.tick hlt]
      intro t
      rcases eq_or_ne (msgType it.r) t with heq | hne
      · rw [seqsOfType_append_matching t s.published _ heq]
        rw [List.pairwise_append]
        refine ⟨hpw t, by simp, ?_⟩
        intro x hx y hy
        have hy' := List.mem_singleton.mp hy
        have hy2 : y = s.n.getD t 0 + 1 := by
          rw [← heq]
          exact hy'
        obtain ⟨rec, hin, hty, hseq⟩ := mem_seqsOfType t x s.published hx
        have hb := hbound rec hin
        rw [hty, hseq] at hb
        omega
      · rw [seqsOfType_append_filtered t s.published _ hne]
        exact hpw t

theorem JInv_run (its : List JIter) : ∀ s : JState, JInv s →
    JInv (jsonRun s its) := by
  induction its with
  | nil => intro s h; exact h
  | cons it its ih =>
    intro s h
    rw [jsonRun_cons]
    exact ih (jsonStep s it) (JInv_step s it h)

theorem JInv_jState0 : JInv jState0 :=
  ⟨rfl, by simp [jState0], fun t => by simp [jState0, seqsOfType]⟩

theorem jsonRun_append (a b : List JIter) : ∀ s : JState,
    jsonRun s (a ++ b) = jsonRun (jsonRun s a) b := by
  induction a with
  | nil => intro s; rfl
  | cons it a ih =>
    intro s
    rw [List.cons_append, jsonRun_cons, jsonRun_cons]
    exact ih (jsonStep s it)

/-- C7 counterexample: a 3-iteration run with draws of types 0, 0, 1 (all
publishes succeeding) publishes records whose sequence fields read
`[1, 2, 1]` — the integer counter field is not monotonically increasing
across successive published records (it drops from 2 to 1 when the type
changes). -/
theorem record_counter_field_not_monotone_across_records :
    (jsonRun jState0
        [⟨1, 0, none⟩, ⟨1, 0, none⟩, ⟨401, 0, none⟩]).published.map
      Sample.sequence = [1, 2, 1] ∧
    ((jsonRun jState0
        [⟨1, 0, none⟩, ⟨1, 0, none⟩, ⟨401, 0, none⟩]).published.getD 1
      ⟨0, 0, 0, 0⟩).sequence = 2 ∧
    ((jsonRun jState0
        [⟨1, 0, none⟩, ⟨1, 0, none⟩, ⟨401, 0, none⟩]).published.getD 2
      ⟨0, 0, 0, 0⟩).sequence = 1 ∧
    ¬ (2 : ℕ) ≤ 1 := by
  refine ⟨by decide, by decide, by decide, by decide⟩

/-- C8: the value constructed by the weighted-random loop obeys the
type-dependent range contract: for `msg_type = 1` it is the cast of an
integer (a whole number) in `[0, 255]`; for any other type it lies in
`[-1000, 1000)`.  The hypotheses are the contract of `random.random()`. -/
theorem sample_value_range_contract (t : ℕ) (u : ℚ)
    (h0 : 0 ≤ u) (h1 : u < 1) :
    (t = 1 → (∃ k : ℤ, sampleValue t u = (k : ℚ)) ∧
      0 ≤ sampleValue t u ∧ sampleValue t u ≤ 255) ∧
    (t ≠ 1 → -1000 ≤ sampleValue t u ∧ sampleValue t u < 1000) := by
  constructor
  · intro ht
    subst ht
    have hv : sampleValue 1 u = ((⌊u * 256⌋ : ℤ) : ℚ) := by
      simp [sampleValue]
    rw [hv]
    refine ⟨⟨⌊u * 256⌋, rfl⟩, ?_, ?_⟩
    · have hk : (0 : ℤ) ≤ ⌊u * 256⌋ :=
        Int.floor_nonneg.mpr (mul_nonneg h0 (by norm_num))
      exact_mod_cast hk
    · have hlt : ⌊u * 256⌋ < 256 := by
        apply Int.floor_lt.mpr
        push_cast
        nlinarith
      have hk : ⌊u * 256⌋ ≤ 255 := by omega
      exact_mod_cast hk
  · intro ht
    simp only [sampleValue, if_neg ht]
    constructor <;> nlinarith

theorem sample_value_range_contract_witness :
    (0 : ℚ) ≤ 1 / 2 ∧ (1 / 2 : ℚ) < 1 ∧
    ((1 = 1 → (∃ k : ℤ, sampleValue 1 (1 / 2) = (k : ℚ)) ∧
        0 ≤ sampleValue 1 (1 / 2) ∧ sampleValue 1 (1 / 2) ≤ 255) ∧
      (1 ≠ 1 → -1000 ≤ sampleValue 1 (1 / 2) ∧
        sampleValue 1 (1 / 2) < 1000)) ∧
    ((0 = 1 → (∃ k : ℤ, sampleValue 0 (1 / 2) = (k : ℚ)) ∧
        0 ≤ sampleValue 0 (1 / 2) ∧ sampleValue 0 (1 / 2) ≤ 255) ∧
      (0 ≠ 1 → -1000 ≤ sampleValue 0 (1 / 2) ∧
        sampleValue 0 (1 / 2) < 1000)) :=
  ⟨by norm_num, by norm_num,
   sample_value_range_contract 1 (1 / 2) (by norm_num) (by norm_num),
   sample_value_range_contract 0 (1 / 2) (by norm_num) (by norm_num)⟩

/-!
## Shape of the fixed batch across iterations
-/

/-- The shape every fixed batch has: static `msg_type`/`encoder`/`motor`/
`encoder_counter` fields, one shared timestamp `tk`, and consecutive
`motor_counter` values starting at `c0`. -/
def batchTemplate (opm : ℕ) (enc mot : ℕ → ℤ) (tk c0 : ℕ) : List DObj :=
  (List.range opm).map fun i => ⟨3, enc i, mot i, tk, i * 100, c0 + i⟩

theorem dataStamp_rangeMap (opm c tk : ℕ) (g : ℕ → DObj) :
    dataStamp ((List.range opm).map g) c tk
      = (List.range opm).map fun i =>
          { g i with timestamp := tk, motor_counter := c + i } := by
  unfold dataStamp
  apply List.ext_getElem
  · simp
  · intro i h1 h2
    simp

theorem dataInit_template (opm : ℕ) (enc mot : ℕ → ℤ) (t0 : ℕ) :
    dataInit opm enc mot t0 = batchTemplate opm enc mot t0 0 := by
  unfold dataInit batchTemplate
  exact List.map_congr_left fun i _ => by simp

theorem dataStamp_template (opm : ℕ) (enc mot : ℕ → ℤ)
    (tk0 c0 c tk : ℕ) :
    dataStamp (batchTemplate opm enc mot tk0 c0) c tk
      = batchTemplate opm enc mot tk c := by
  unfold batchTemplate
  rw [dataStamp_rangeMap]

theorem dataStep_published_none (s : DState) :
    (dataStep s none).published
      = s.published ++ [dataStamp s.objects s.counter s.tick] := rfl

theorem dataStep_published_some (s : DState) (e : String) :
    (dataStep s (some e)).published = s.published := rfl

/-- Loop invariant of the fixed-batch producer: the in-memory object list
and every published snapshot fit `batchTemplate`. -/
def DBatchInv (opm : ℕ) (enc mot : ℕ → ℤ) (s : DState) : Prop :=
  (∃ tk c0, s.objects = batchTemplate opm enc mot tk c0) ∧
  ∀ rec ∈ s.published, ∃ tk c0, rec = batchTemplate opm enc mot tk c0

theorem DBatchInv_step (opm : ℕ) (enc mot : ℕ → ℤ) (s : DState)
    (p : Option String) (h : DBatchInv opm enc mot s) :
    DBatchInv opm enc mot (dataStep s p) := by
  obtain ⟨⟨tk0, c00, hobj⟩, hpub⟩ := h
  have hstamp : dataStamp s.objects s.counter s.tick
      = batchTemplate opm enc mot s.tick s.counter := by
    rw [hobj, dataStamp_template]
  constructor
  · exact ⟨s.tick, s.counter, by rw [dataStep_objects, hstamp]⟩
  · intro rec hmem
    cases p with
    | none =>
      rw [dataStep_published_none] at hmem
      rcases List.mem_append.mp hmem with hold | hnew
      · exact hpub rec hold
      · have : rec = dataStamp s.objects s.counter s.tick :=
          List.mem_singleton.mp hnew
        exact ⟨s.tick, s.counter, by rw [this, hstamp]⟩
    | some e =>
      rw [dataStep_published_some] at hmem
      exact hpub rec hmem

theorem DBatchInv_run (opm : ℕ) (enc mot : ℕ → ℤ)
    (ps : List (Option String)) : ∀ s : DState,
    DBatchInv opm enc mot s → DBatchInv opm enc mot (dataRun s ps) := by
  induction ps with
  | nil => intro s h; exact h
  | cons p ps ih =>
    intro s h
    rw [dataRun_cons]
    exact ih (dataStep s p) (DBatchInv_step opm enc mot s p h)

theorem DBatchInv_dState0 (opm : ℕ) (enc mot : ℕ → ℤ) :
    DBatchInv opm enc mot (dState0 opm enc mot) :=
  ⟨⟨0, 0, dataInit_template opm enc mot 0⟩, by simp [dState0]⟩

/-- C9: every record published by the fixed-batch producer is the startup
batch with only `timestamp` and `motor_counter` rewritten: it matches
`batchTemplate` for some send-time stamp and counter base, and its
`msg_type`/`encoder`/`motor`/`encoder_counter` fields equal those assigned
once by the startup construction loop. -/
theorem fixed_batch_static_fields_preserved
    (opm : ℕ) (enc mot : ℕ → ℤ) (ps : List (Option String)) :
    ∀ rec ∈ (dataRun (dState0 opm enc mot) ps).published,
      ∃ tk c0 : ℕ, rec = batchTemplate opm enc mot tk c0 ∧
        rec.map (fun o => (o.msg_type, o.encoder, o.motor, o.encoder_counter))
          = (dataInit opm enc mot 0).map
              (fun o => (o.msg_type, o.encoder, o.motor, o.encoder_counter))
    := by
  intro rec hmem
  obtain ⟨tk, c0, hrec⟩ :=
    (DBatchInv_run opm enc mot ps (dState0 opm enc mot)
      (DBatchInv_dState0 opm enc mot)).2 rec hmem
  refine ⟨tk, c0, hrec, ?_⟩
  rw [hrec]
  unfold batchTemplate dataInit
  rw [List.map_map, List.map_map]
  rfl

theorem fixed_batch_static_fields_preserved_witness :
    [DObj.mk 3 5 (-7) 1 0 0]
        ∈ (dataRun (dState0 1 (fun _ => 5) (fun _ => -7)) [none]).published ∧
    ∃ tk c0 : ℕ,
      [DObj.mk 3 5 (-7) 1 0 0]
          = batchTemplate 1 (fun _ => 5) (fun _ => -7) tk c0 ∧
      [DObj.mk 3 5 (-7) 1 0 0].map
          (fun o => (o.msg_type, o.encoder, o.motor, o.encoder_counter))
        = (dataInit 1 (fun _ => 5) (fun _ => -7) 0).map
            (fun o => (o.msg_type, o.encoder, o.motor, o.encoder_counter)) :=
  ⟨by decide,
   fixed_batch_static_fields_preserved 1 (fun _ => 5) (fun _ => -7) [none]
     [DObj.mk 3 5 (-7) 1 0 0] (by decide)⟩

/-- C10: the weighted-random producer's type draw always lands in
`{0, 1, 2}`, so `n[obj["msg_type"]]` indexes within the three-element
counter list: the update reads back the incremented value, preserves the
list length (forever, across the whole run), and the constructed object's
`value` field is assigned (to the type-dependent draw) on every branch. -/
theorem msg_type_in_bounds_value_total
    (r : ℕ) (u : ℚ) (tick : ℕ) (s : JState) (its : List JIter)
    (h : s.n.length = 3) :
    msgType r < s.n.length ∧
    (jsonRun s its).n.length = 3 ∧
    (mkObj r u s.n tick).2.length = s.n.length ∧
    (mkObj r u s.n tick).2.getD (msgType r) 0
      = s.n.getD (msgType r) 0 + 1 ∧
    (mkObj r u s.n tick).1.value = sampleValue (msgType r) u ∧
    (mkObj r u s.n tick).1.msg_type = msgType r := by
  refine ⟨h ▸ msgType_lt_three r, by rw [jsonRun_n_length, h], ?_, ?_,
    rfl, rfl⟩
  · show (s.n.set (msgType r) (s.n.getD (msgType r) 0 + 1)).length
      = s.n.length
    rw [List.length_set]
  · show (s.n.set (msgType r) (s.n.getD (msgType r) 0 + 1)).getD
        (msgType r) 0 = s.n.getD (msgType r) 0 + 1
    rw [getD_set_self s.n (msgType r) _ (h ▸ msgType_lt_three r)]

theorem msg_type_in_bounds_value_total_witness :
    jState0.n.length = 3 ∧
    (msgType 501 < jState0.n.length ∧
      (jsonRun jState0 []).n.length = 3 ∧
      (mkObj 501 0 jState0.n 0).2.length = jState0.n.length ∧
      (mkObj 501 0 jState0.n 0).2.getD (msgType 501) 0
        = jState0.n.getD (msgType 501) 0 + 1 ∧
      (mkObj 501 0 jState0.n 0).1.value = sampleValue (msgType 501) 0 ∧
      (mkObj 501 0 jState0.n 0).1.msg_type = msgType 501) :=
  ⟨by decide, msg_type_in_bounds_value_total 501 0 0 jState0 [] (by decide)⟩

/-!
## Counter fields across the fixed-batch publish history
-/

theorem batchTemplate_length (opm : ℕ) (enc mot : ℕ → ℤ) (tk c0 : ℕ) :
    (batchTemplate opm enc mot tk c0).length = opm := by
  simp [batchTemplate]

theorem batchTemplate_getD (opm : ℕ) (enc mot : ℕ → ℤ) (tk c0 i : ℕ)
    (d : DObj) (hi : i < opm) :
    (batchTemplate opm enc mot tk c0).getD i d
      = ⟨3, enc i, mot i, tk, i * 100, c0 + i⟩ := by
  rw [List.getD_eq_getElem _ _
    (by rw [batchTemplate_length]; exact hi)]
  simp [batchTemplate]

/-- Relation between an earlier and a later published batch: at every
shared position the `motor_counter` strictly increases and the
`encoder_counter` is unchanged. -/
def recPointwiseMono (rec rec' : List DObj) : Prop :=
  ∀ i : ℕ, i < rec.length → i < rec'.length →
    (rec.getD i ⟨0, 0, 0, 0, 0, 0⟩).motor_counter
        < (rec'.getD i ⟨0, 0, 0, 0, 0, 0⟩).motor_counter ∧
    (rec.getD i ⟨0, 0, 0, 0, 0, 0⟩).encoder_counter
        = (rec'.getD i ⟨0, 0, 0, 0, 0, 0⟩).encoder_counter

/-- Strengthened fixed-batch invariant: the object list fits
`batchTemplate`; the publish history is a list of template instances whose
counter bases grow by at least the batch size from one published record to
the next and stay at least one batch below the running `counter`. -/
def DMonoInv (opm : ℕ) (enc mot : ℕ → ℤ) (s : DState) : Prop :=
  (∃ tk c0, s.objects = batchTemplate opm enc mot tk c0) ∧
  ∃ metas : List (ℕ × ℕ),
    s.published = metas.map (fun m => batchTemplate opm enc mot m.1 m.2) ∧
    (∀ m ∈ metas, m.2 + opm ≤ s.counter) ∧
    List.Pairwise (fun a b => a.2 + opm ≤ b.2) metas

theorem DMonoInv_step (opm : ℕ) (enc mot : ℕ → ℤ) (s : DState)
    (p : Option String) (h : DMonoInv opm enc mot s) :
    DMonoInv opm enc mot (dataStep s p) := by
  obtain ⟨⟨tk0, c00, hobj⟩, metas, hpub, hbnd, hpw⟩ := h
  have hlen : s.objects.length = opm := by
    rw [hobj, batchTemplate_length]
  have hstamp : dataStamp s.objects s.counter s.tick
      = batchTemplate opm enc mot s.tick s.counter := by
    rw [hobj, dataStamp_template]
  have hcnt : (dataStep s p).counter = s.counter + opm := by
    rw [dataStep_counter, hlen]
  refine ⟨⟨s.tick, s.counter, by rw [dataStep_objects, hstamp]⟩, ?_⟩
  cases p with
  | some e =>
    refine ⟨metas, by rw [dataStep_published_some]; exact hpub, ?_, hpw⟩
    intro m hm
    rw [hcnt]
    have := hbnd m hm
    omega
  | none =>
    refine ⟨metas ++ [(s.tick, s.counter)], ?_, ?_, ?_⟩
    · rw [dataStep_published_none, hpub, List.map_append, hstamp]
      rfl
    · intro m hm
      rw [hcnt]
      rcases List.mem_append.mp hm with h1 | h2
      · have := hbnd m h1
        omega
      · have hm2 : m = (s.tick, s.counter) := List.mem_singleton.mp h2
        subst hm2
        simp
    · rw [List.pairwise_append]
      refine ⟨hpw, by simp, ?_⟩
      intro a ha b hb
      have hb' : b = (s.tick, s.counter) := List.mem_singleton.mp hb
      subst hb'
      simpa using hbnd a ha

theorem DMonoInv_run (opm : ℕ) (enc mot : ℕ → ℤ)
    (ps : List (Option String)) : ∀ s : DState,
    DMonoInv opm enc mot s → DMonoInv opm enc mot (dataRun s ps) := by
  induction ps with
  | nil => intro s h; exact h
  | cons p ps ih =>
    intro s h
    rw [dataRun_cons]
    exact ih (dataStep s p) (DMonoInv_step opm enc mot s p h)

theorem DMonoInv_dState0 (opm : ℕ) (enc mot : ℕ → ℤ) :
    DMonoInv opm enc mot (dState0 opm enc mot) :=
  ⟨⟨0, 0, dataInit_template opm enc mot 0⟩,
   [], by simp [dState0], by simp, by simp⟩

theorem fixed_batch_published_pairwise (opm : ℕ) (enc mot : ℕ → ℤ)
    (ps : List (Option String)) :
    List.Pairwise recPointwiseMono
      (dataRun (dState0 opm enc mot) ps).published := by
  obtain ⟨-, metas, hpub, -, hpw⟩ :=
    DMonoInv_run opm enc mot ps (dState0 opm enc mot)
      (DMonoInv_dState0 opm enc mot)
  rw [hpub, List.pairwise_map]
  refine List.Pairwise.imp ?_ hpw
  intro a b hab
  unfold recPointwiseMono
  intro i hi hi'
  rw [batchTemplate_length] at hi hi'
  rw [batchTemplate_getD opm enc mot a.1 a.2 i _ hi,
    batchTemplate_getD opm enc mot b.1 b.2 i _ hi']
  constructor
  · show a.2 + i < b.2 + i
    omega
  · rfl

/-- C7 amended: throughout a run of the weighted-random producer each
per-type sequence counter is non-decreasing over time (incremented, never
decremented or reset) and the sequence fields of published records are
strictly increasing across successive records *of the same message type*
(not across all records); in the fixed-batch producer, across successive
published records the `motor_counter` at each batch position strictly
increases and the `encoder_counter` at each position is unchanged (so both
wire-format counters are monotone record over record, `motor_counter`
strictly). -/
theorem counters_monotone_and_counter_fields_monotone
    (its more : List JIter) (t : ℕ)
    (opm : ℕ) (enc mot : ℕ → ℤ) (ps : List (Option String)) :
    (jsonRun jState0 its).n.getD t 0
        ≤ (jsonRun jState0 (its ++ more)).n.getD t 0 ∧
    List.Pairwise (· < ·) (seqsOfType t (jsonRun jState0 its).published) ∧
    List.Pairwise recPointwiseMono
      (dataRun (dState0 opm enc mot) ps).published := by
  refine ⟨?_, (JInv_run its jState0 JInv_jState0).2.2 t,
    fixed_batch_published_pairwise opm enc mot ps⟩
  rw [jsonRun_append its more jState0,
    jsonRun_n_getD more (jsonRun jState0 its)
      (by rw [jsonRun_n_length]; rfl) t]
  omega
